import Mathlib

/-!
Shallow embedding of the trade-execution and pricing engine of the
footbalmarket repository (Next.js API routes over Prisma).

Dollar amounts, share quantities, probabilities and balances are modelled
as exact rationals.  JavaScript `parseFloat(x.toFixed(4))` on the
non-negative quantities produced by the engine is modelled as
round-half-up at four decimal places.  Fallible routes return `Except`;
the error constructors mirror the HTTP error responses of the routes.

Sources embedded here:
 - `src/app/api/trades/route.ts` (AMM-style immediate trade, `POST`),
 - the order-book route (unnamed source file `part_007`): order placement,
   MARKET-order matching, `updateHoldings`, `updateProbabilities`,
 - `src/app/api/orders/[id]/route.ts` (`DELETE`, cancellation),
 - `src/app/api/markets/[id]/route.ts` (`PATCH`, resolution),
 - `src/app/api/markets/route.ts` (`POST`, creation: probability `1/N`),
 - the enhanced YES/NO trade route (unnamed source file `part_010`).
-/

namespace FM

/-- JavaScript `parseFloat(x.toFixed(4))` for the non-negative quantities
used by the engine: round half up at four decimal places. -/
def round4 (q : ℚ) : ℚ := ((round (q * 10000) : ℤ) : ℚ) / 10000

/-- `Math.max(0.01, Math.min(0.99, newProbability))`
(trades route line 396; order-book route line 581). -/
def clampProb (q : ℚ) : ℚ := max (1/100) (min (99/100) q)

/-- JavaScript `marketVolume || 1` applied to a market volume: `0` is
falsy and is replaced by `1`; every non-zero volume is kept, including
volumes strictly between `0` and `1`. -/
def effectiveVolume (v : ℚ) : ℚ := if v = 0 then 1 else v

/-- Trade side: the `type` field of trades and orders. -/
inductive TradeType
  | BUY
  | SELL
deriving DecidableEq, Repr

/-- `volumeRatio = tradeAmount / (marketVolume || 1)`;
`impactFactor = 0.001 * volumeRatio * 100` (both trade routes and the
order-book `updateProbabilities`). -/
def impactFactor (tradeAmount marketVolume : ℚ) : ℚ :=
  1/1000 * (tradeAmount / effectiveVolume marketVolume) * 100

/-- BUY: `p + f * (1 - p)`; SELL: `p - f * p` (diminishing returns). -/
def rawNewProbability : TradeType → ℚ → ℚ → ℚ
  | .BUY, p, f => p + f * (1 - p)
  | .SELL, p, f => p - f * p

/-- The traded outcome's stored probability: raw move, clamped to
`[0.01, 0.99]`, then rounded to four decimals. -/
def tradedNewProbability (t : TradeType) (p f : ℚ) : ℚ :=
  round4 (clampProb (rawNewProbability t p f))

/-- Sibling redistribution: `scaleFactor = (1 - newProb) / totalOtherProbability`
and every sibling probability is `round4 (p * scaleFactor)`.  The clamp is
applied only to the traded outcome, never to the rescaled siblings. -/
def redistribute (newProb : ℚ) (siblings : List ℚ) : List ℚ :=
  siblings.map fun p => round4 (p * ((1 - newProb) / siblings.sum))

/-- One market, viewed from a trade on a fixed outcome: the traded
outcome's probability, the probabilities of the other outcomes of the
same market, and the cumulative volume. -/
structure MarketState where
  tradedProb : ℚ
  siblings : List ℚ
  volume : ℚ
deriving DecidableEq, Repr

/-- Sum of all outcome probabilities of the market. -/
def probSum (s : MarketState) : ℚ := s.tradedProb + s.siblings.sum

/-- Market creation (`markets/route.ts` POST): `volume = 0` and every one
of the `n` outcomes starts at `initialProbability = 1 / n`. -/
def createMarket (n : ℕ) : MarketState :=
  { tradedProb := 1 / (n : ℚ)
    siblings := List.replicate (n - 1) (1 / (n : ℚ))
    volume := 0 }

/-- The AMM-path trade of `trades/route.ts` POST, probability and volume
effects.  The route increments `market.volume` by the request `amount`
inside the transaction, but the impact computation reads `market.volume`
from the object fetched before the transaction, so the impact uses the
pre-trade volume.  (For a single-outcome market `redistribute` maps over
the empty sibling list, which also models the skipped
`allOutcomes.length > 1` branch.) -/
def ammTrade (s : MarketState) (amount : ℚ) (t : TradeType) : MarketState :=
  let f := impactFactor amount s.volume
  let newProb := tradedNewProbability t s.tradedProb f
  { tradedProb := newProb
    siblings := redistribute newProb s.siblings
    volume := s.volume + amount }

/-- One order-book fill's market effects (order-book route lines 412-423):
the volume is incremented by `fillAmount` (a share quantity), and
`updateProbabilities` then re-reads the market inside the same
transaction, so its impact uses the post-increment volume. -/
def bookFillPricing (s : MarketState) (fillAmount : ℚ) (t : TradeType) : MarketState :=
  let newVolume := s.volume + fillAmount
  let f := impactFactor fillAmount newVolume
  let newProb := tradedNewProbability t s.tradedProb f
  { tradedProb := newProb
    siblings := redistribute newProb s.siblings
    volume := newVolume }

end FM

namespace FM

/-! ### Numeric lemmas about rounding -/

theorem abs_round4_sub_le (q : ℚ) : |round4 q - q| ≤ 1/20000 := by
  have h : |((round (q * 10000) : ℤ) : ℚ) - q * 10000| ≤ 1/2 := by
    simpa [abs_sub_comm] using abs_sub_round (q * 10000)
  have h2 : round4 q - q = (((round (q * 10000) : ℤ) : ℚ) - q * 10000) / 10000 := by
    unfold round4; ring
  rw [h2, abs_div, abs_of_pos (show (0:ℚ) < 10000 by norm_num)]
  linarith

theorem round4_lower {q : ℚ} (h : 1/100 ≤ q) : 1/100 ≤ round4 q := by
  have h1 : (100:ℤ) ≤ round (q * 10000) := by
    rw [round_eq, Int.le_floor]
    push_cast
    linarith
  have h2 : (100:ℚ) ≤ ((round (q * 10000) : ℤ) : ℚ) := by exact_mod_cast h1
  unfold round4
  linarith

theorem round4_upper {q : ℚ} (h : q ≤ 99/100) : round4 q ≤ 99/100 := by
  have h1 : round (q * 10000) ≤ (9900:ℤ) := by
    rw [round_eq]
    have hx : q * 10000 + 1/2 < ((9901:ℤ) : ℚ) := by push_cast; linarith
    have := Int.floor_lt.mpr hx
    omega
  have h2 : ((round (q * 10000) : ℤ) : ℚ) ≤ 9900 := by exact_mod_cast h1
  unfold round4
  linarith

theorem abs_sum_round4_sub_le (f : ℚ → ℚ) (l : List ℚ) :
    |(l.map fun p => round4 (f p)).sum - (l.map f).sum| ≤ l.length * (1/20000) := by
  induction l with
  | nil => simp
  | cons a tl ih =>
    simp only [List.map_cons, List.sum_cons, List.length_cons]
    have h1 := abs_round4_sub_le (f a)
    have h2 : round4 (f a) + (tl.map fun p => round4 (f p)).sum - (f a + (tl.map f).sum)
        = (round4 (f a) - f a) + ((tl.map fun p => round4 (f p)).sum - (tl.map f).sum) := by
      ring
    rw [h2]
    have h3 : |(round4 (f a) - f a) + ((tl.map fun p => round4 (f p)).sum - (tl.map f).sum)|
        ≤ |round4 (f a) - f a| + |(tl.map fun p => round4 (f p)).sum - (tl.map f).sum| :=
      abs_add _ _
    push_cast
    linarith

theorem sum_map_mul_const (l : List ℚ) (k : ℚ) :
    (l.map fun p => p * k).sum = l.sum * k := by
  induction l with
  | nil => simp
  | cons a tl ih => simp [ih, add_mul]

theorem sum_redistribute_unrounded (c : ℚ) (l : List ℚ) (h : l.sum ≠ 0) :
    (l.map fun p => p * (c / l.sum)).sum = c := by
  rw [sum_map_mul_const]
  field_simp

/-- The post-trade probability sum is `1` up to one half-ulp of the
four-decimal grid per rescaled sibling. -/
theorem redistribute_sum_bound (newProb : ℚ) (siblings : List ℚ)
    (h : siblings.sum ≠ 0) :
    |newProb + (redistribute newProb siblings).sum - 1|
      ≤ siblings.length * (1/20000) := by
  unfold redistribute
  have hsum := sum_redistribute_unrounded (1 - newProb) siblings h
  have hb := abs_sum_round4_sub_le (fun p => p * ((1 - newProb) / siblings.sum)) siblings
  rw [hsum] at hb
  have h3 : newProb + (siblings.map fun p =>
        round4 (p * ((1 - newProb) / siblings.sum))).sum - 1
      = (siblings.map fun p =>
        round4 (p * ((1 - newProb) / siblings.sum))).sum - (1 - newProb) := by
    ring
  rw [h3]
  exact hb

/-! ### Order book: placement and MARKET-order matching (order-book route POST) -/

/-- Order lifecycle states. -/
inductive OrderStatus
  | OPEN
  | FILLED
  | CANCELLED
deriving DecidableEq, Repr

/-- The `orderType` field of an order. -/
inductive OrderKind
  | LIMIT
  | MARKET
deriving DecidableEq, Repr

/-- A resting order of the book for one (market, outcome) pair. -/
structure BookOrder where
  oid : ℕ
  owner : ℕ
  price : ℚ
  amount : ℚ
  filled : ℚ
  status : OrderStatus
deriving DecidableEq, Repr

/-- `availableInMatchingOrder = amount - filled`. -/
def BookOrder.availableAmount (o : BookOrder) : ℚ := o.amount - o.filled

/-- One executed match against a resting (maker) order. -/
structure FillRec where
  makerOid : ℕ
  maker : ℕ
  price : ℚ
  amount : ℚ
deriving DecidableEq, Repr

/-- The matching loop of the order-book route (lines 324-428): walk the
resting orders; stop when the incoming remainder is exhausted; skip
resting orders with nothing available; otherwise fill
`min remaining available` at the resting order's price, bump the resting
order's `filled` and set it `FILLED` exactly when fully consumed. -/
def matchLoop : ℚ → List BookOrder → List BookOrder × List FillRec
  | _, [] => ([], [])
  | remaining, o :: rest =>
    if remaining ≤ 0 then (o :: rest, [])
    else if o.availableAmount ≤ 0 then
      let res := matchLoop remaining rest
      (o :: res.1, res.2)
    else
      let fillAmount := min remaining o.availableAmount
      let o2 : BookOrder :=
        { o with filled := o.filled + fillAmount
                 status := if o.availableAmount ≤ fillAmount then .FILLED else .OPEN }
      let res := matchLoop (remaining - fillAmount) rest
      (o2 :: res.1, ⟨o.oid, o.owner, o.price, fillAmount⟩ :: res.2)

/-- The opposite-side snapshot is sorted `price asc` when the incoming
side is BUY and `price desc` when it is SELL (the `orderBy` of the
matching query). -/
def sortBook (t : TradeType) (l : List BookOrder) : List BookOrder :=
  match t with
  | .BUY => l.insertionSort fun a b => a.price ≤ b.price
  | .SELL => l.insertionSort fun a b => b.price ≤ a.price

/-- The matching query selects only `status: OPEN` orders. -/
def openOrders (l : List BookOrder) : List BookOrder :=
  l.filter fun o => o.status = .OPEN

/-- Sum of the positive available remainders of a book. -/
def totalAvailable (l : List BookOrder) : ℚ :=
  (l.map fun o => max 0 o.availableAmount).sum

/-- Result of placing a MARKET order. -/
structure PlaceResult where
  book : List BookOrder
  fills : List FillRec
  filledTotal : ℚ
  status : OrderStatus
  takerSpend : ℚ
deriving DecidableEq, Repr

/-- MARKET-order placement: match the sorted opposite-side OPEN orders;
the incoming order finalizes `FILLED` when `filled >= amount`, else it
stays `OPEN` with the partial fill, and it is never added to the book.
`takerSpend` is the total balance movement of the taker
(`fillAmount * tradePrice` summed over the fills). -/
def placeMarketOrder (t : TradeType) (amount : ℚ) (oppositeSide : List BookOrder) :
    PlaceResult :=
  let res := matchLoop amount (sortBook t (openOrders oppositeSide))
  let filledTotal := (res.2.map FillRec.amount).sum
  { book := res.1
    fills := res.2
    filledTotal := filledTotal
    status := if amount ≤ filledTotal then .FILLED else .OPEN
    takerSpend := (res.2.map fun f => f.amount * f.price).sum }

/-- One recorded `Trade` row. -/
structure TradeRow where
  user : ℕ
  amount : ℚ
  price : ℚ
  side : TradeType
deriving DecidableEq, Repr

def oppositeOf : TradeType → TradeType
  | .BUY => .SELL
  | .SELL => .BUY

/-- Two `Trade` rows are written per match: one for the taker at the
maker's price and one for the maker at the same price, opposite side. -/
def tradeRowsOf (taker : ℕ) (t : TradeType) (fills : List FillRec) : List TradeRow :=
  (fills.map fun f =>
    [TradeRow.mk taker f.amount f.price t,
     TradeRow.mk f.maker f.amount f.price (oppositeOf t)]).flatten

/-- Balance movement of a BUY order at placement: a LIMIT BUY reserves the
full `amount` (with an `ORDER_RESERVE` transaction); a MARKET BUY pays
only `fillAmount * tradePrice` per actual fill and reserves nothing for
the unfilled remainder. -/
def placeBuyBalanceDelta (kind : OrderKind) (amount : ℚ)
    (oppositeSide : List BookOrder) : ℚ :=
  match kind with
  | .LIMIT => -amount
  | .MARKET => -(placeMarketOrder .BUY amount oppositeSide).takerSpend

/-! ### Order cancellation (`orders/[id]/route.ts` DELETE) -/

inductive CancelErr
  | Forbidden
  | AlreadyClosed
  | MarketResolvedErr
deriving DecidableEq, Repr

/-- The order under cancellation. -/
structure COrder where
  owner : ℕ
  side : TradeType
  kind : OrderKind
  amount : ℚ
  filled : ℚ
  status : OrderStatus
deriving Repr

/-- State touched by a cancellation. -/
structure CancelState where
  order : COrder
  marketResolved : Bool
  balances : ℕ → ℚ
  refundLog : List (ℕ × ℚ)

/-- Cancellation: authorization (owner or admin) is checked before the
status check; only OPEN orders on unresolved markets cancel.  For a BUY
order with a positive remainder, the route credits `amount - filled` to
`user.id` — the authenticated caller — and logs the
`ORDER_CANCEL_REFUND` transaction under the caller, whoever owns the
order.  SELL cancellation performs no ledger action, and the `orderType`
of the order is never consulted. -/
def cancelOrder (caller : ℕ) (isAdmin : Bool) (s : CancelState) :
    Except CancelErr CancelState :=
  if caller ≠ s.order.owner ∧ isAdmin = false then .error .Forbidden
  else if s.order.status ≠ .OPEN then .error .AlreadyClosed
  else if s.marketResolved then .error .MarketResolvedErr
  else
    let o2 : COrder := { s.order with status := .CANCELLED }
    if s.order.side = .BUY ∧ 0 < s.order.amount - s.order.filled then
      .ok { order := o2
            marketResolved := s.marketResolved
            balances := fun u =>
              if u = caller then s.balances u + (s.order.amount - s.order.filled)
              else s.balances u
            refundLog := (caller, s.order.amount - s.order.filled) :: s.refundLog }
    else .ok { s with order := o2 }

/-! ### Market resolution (`markets/[id]/route.ts` PATCH) -/

/-- A `UserOutcome` row as seen by resolution. -/
structure Holding where
  holder : ℕ
  outcomeId : ℕ
  quantity : ℚ
deriving DecidableEq, Repr

/-- An order of the resolved market. -/
structure ResOrder where
  owner : ℕ
  side : TradeType
  amount : ℚ
  filled : ℚ
  status : OrderStatus
deriving DecidableEq, Repr

inductive TxType
  | MarketResolutionPayout
  | OrderRefund
deriving DecidableEq, Repr

/-- One `Transaction` row. -/
structure TxRec where
  user : ℕ
  amount : ℚ
  txType : TxType
deriving DecidableEq, Repr

/-- State of one market and the accounts touched by its resolution. -/
structure ResState where
  isResolved : Bool
  resolvedOutcomeId : Option ℕ
  outcomeIds : List ℕ
  holdings : List Holding
  orders : List ResOrder
  balances : ℕ → ℚ
  txLog : List TxRec

inductive ResErr
  | AlreadyResolved
  | InvalidOutcome
deriving DecidableEq, Repr

/-- Payout walk over the holdings (resolution route lines 160-209): every
holding with positive quantity is zeroed; holders of the winning outcome
are additionally credited `quantity` (1.00 per share) with a
`MARKET_RESOLUTION_PAYOUT` transaction. -/
def resolveHoldings (winning : ℕ) :
    List Holding → (ℕ → ℚ) → List TxRec → List Holding × (ℕ → ℚ) × List TxRec
  | [], bal, log => ([], bal, log)
  | h :: rest, bal, log =>
    if 0 < h.quantity then
      let bal2 : ℕ → ℚ :=
        if h.outcomeId = winning then
          fun u => if u = h.holder then bal u + h.quantity else bal u
        else bal
      let log2 :=
        if h.outcomeId = winning then
          log ++ [TxRec.mk h.holder h.quantity .MarketResolutionPayout]
        else log
      let res := resolveHoldings winning rest bal2 log2
      ({ h with quantity := 0 } :: res.1, res.2.1, res.2.2)
    else
      let res := resolveHoldings winning rest bal log
      (h :: res.1, res.2.1, res.2.2)

/-- Open-order cleanup at resolution (lines 212-254): every OPEN order is
marked CANCELLED; OPEN BUY orders with a positive remainder refund
`amount - filled` to the order's owner with an `ORDER_REFUND`
transaction. -/
def resolveOrders :
    List ResOrder → (ℕ → ℚ) → List TxRec → List ResOrder × (ℕ → ℚ) × List TxRec
  | [], bal, log => ([], bal, log)
  | o :: rest, bal, log =>
    if o.status = .OPEN then
      let bal2 : ℕ → ℚ :=
        if o.side = .BUY ∧ 0 < o.amount - o.filled then
          fun u => if u = o.owner then bal u + (o.amount - o.filled) else bal u
        else bal
      let log2 :=
        if o.side = .BUY ∧ 0 < o.amount - o.filled then
          log ++ [TxRec.mk o.owner (o.amount - o.filled) .OrderRefund]
        else log
      let res := resolveOrders rest bal2 log2
      ({ o with status := .CANCELLED } :: res.1, res.2.1, res.2.2)
    else
      let res := resolveOrders rest bal log
      (o :: res.1, res.2.1, res.2.2)

/-- Market resolution: fails `AlreadyResolved` before touching any state
when the market is already resolved; otherwise marks the market resolved,
pays out and zeroes the holdings, then cancels and refunds the open
orders, all in one transaction. -/
def resolveMarket (winning : ℕ) (s : ResState) : Except ResErr ResState :=
  if s.isResolved then .error .AlreadyResolved
  else if winning ∉ s.outcomeIds then .error .InvalidOutcome
  else
    let hres := resolveHoldings winning s.holdings s.balances s.txLog
    let ores := resolveOrders s.orders hres.2.1 hres.2.2
    .ok { isResolved := true
          resolvedOutcomeId := some winning
          outcomeIds := s.outcomeIds
          holdings := hres.1
          orders := ores.1
          balances := ores.2.1
          txLog := ores.2.2 }

/-- Total resolution payout owed to user `u`: `quantity * 1.00` summed
over `u`'s positive holdings of the winning outcome. -/
def winTotal (winning u : ℕ) (hs : List Holding) : ℚ :=
  ((hs.filter fun h => 0 < h.quantity ∧ h.outcomeId = winning ∧ h.holder = u).map
    Holding.quantity).sum

/-- Total open-BUY-order refund owed to user `u` at resolution. -/
def refundTotal (u : ℕ) (os : List ResOrder) : ℚ :=
  ((os.filter fun o =>
      o.status = .OPEN ∧ o.side = .BUY ∧ 0 < o.amount - o.filled ∧ o.owner = u).map
    fun o => o.amount - o.filled).sum

/-- The `MARKET_RESOLUTION_PAYOUT` rows appended by resolution. -/
def payoutEntries (winning : ℕ) (hs : List Holding) : List TxRec :=
  (hs.filter fun h => 0 < h.quantity ∧ h.outcomeId = winning).map
    fun h => TxRec.mk h.holder h.quantity .MarketResolutionPayout

/-- The `ORDER_REFUND` rows appended by resolution. -/
def refundEntries (os : List ResOrder) : List TxRec :=
  (os.filter fun o => o.status = .OPEN ∧ o.side = .BUY ∧ 0 < o.amount - o.filled).map
    fun o => TxRec.mk o.owner (o.amount - o.filled) .OrderRefund

/-! ### Holdings on the AMM trade paths -/

/-- A `UserOutcome` row as mutated by the trade routes. -/
structure UHolding where
  quantity : ℚ
  avgPrice : ℚ
deriving DecidableEq, Repr

inductive TradeErr
  | InsufficientShares
deriving DecidableEq, Repr

/-- Shares disposed by a SELL: the raw `amount` in shares mode, else
`amount / probability`. -/
def sharesToSell (sharesMode : Bool) (amount prob : ℚ) : ℚ :=
  if sharesMode then amount else amount / prob

/-- Dollar proceeds of a SELL: `amount * probability` in shares mode,
else the raw `amount`. -/
def sellNotional (sharesMode : Bool) (amount prob : ℚ) : ℚ :=
  if sharesMode then amount * prob else amount

/-- SELL branch of `trades/route.ts` POST (lines 193-230 and 284-305):
requires the holding to cover `sharesToSell`, then decrements the
quantity — the row is kept even when the quantity reaches `0`, and the
`avgPrice` is unchanged.  The second component is the `profitLoss`
surfaced in the transaction metadata:
`sellAmount - sharesToSell * avgPrice`. -/
def ammSellHolding (h : UHolding) (sharesMode : Bool) (amount prob : ℚ) :
    Except TradeErr (UHolding × ℚ) :=
  let sts := sharesToSell sharesMode amount prob
  if h.quantity < sts then .error .InsufficientShares
  else .ok ({ h with quantity := h.quantity - sts },
            sellNotional sharesMode amount prob - sts * h.avgPrice)

/-- The SELL/YES branch of the enhanced trade route (unnamed source file
`part_010`, lines 284-323 and 454-481): same guard plus a positivity
check, but the holding row is deleted (`none`) when the whole quantity is
sold. -/
def enhancedSellHolding (h : UHolding) (sharesMode : Bool) (amount prob : ℚ) :
    Except TradeErr (Option UHolding × ℚ) :=
  let sts := sharesToSell sharesMode amount prob
  if h.quantity ≤ 0 ∨ h.quantity < sts then .error .InsufficientShares
  else
    .ok ((if h.quantity ≤ sts then none
          else some { h with quantity := h.quantity - sts }),
         sellNotional sharesMode amount prob - sts * h.avgPrice)

/-! ### Multiple sell commitments against one holding -/

/-- One seller's holding in one outcome together with the resting SELL
orders on that outcome. -/
structure SellerState where
  quantity : ℚ
  restingSells : List BookOrder
deriving DecidableEq, Repr

/-- SELL order placement (order-book route lines 272-286): rejected
unless the current holding covers `amount`; shares are not reserved, the
order simply rests OPEN. -/
def placeLimitSell (s : SellerState) (oid owner : ℕ) (amount price : ℚ) :
    Except TradeErr SellerState :=
  if s.quantity < amount then .error .InsufficientShares
  else .ok { s with
    restingSells := s.restingSells ++ [BookOrder.mk oid owner price amount 0 .OPEN] }

/-- AMM SELL in shares mode (`trades/route.ts`), holding effect only:
guarded decrement. -/
def ammSellShares (s : SellerState) (amount : ℚ) : Except TradeErr SellerState :=
  if s.quantity < amount then .error .InsufficientShares
  else .ok { s with quantity := s.quantity - amount }

/-- A MARKET BUY by someone else filling against the seller's resting
orders: `updateHoldings` (order-book route lines 527-537) decrements the
resting seller's holding by each fill amount with no re-check of the
current quantity. -/
def fillMarketBuy (s : SellerState) (amount : ℚ) : SellerState :=
  let r := placeMarketOrder .BUY amount s.restingSells
  { quantity := s.quantity - r.filledTotal
    restingSells := r.book }

/-- Extract the success state of an `Except`, with a default. -/
def exceptD {ε α : Type} (d : α) : Except ε α → α
  | .ok a => a
  | .error _ => d

/-! ### Concrete states used as witnesses and counterexamples -/

/-- An OPEN LIMIT BUY order, `amount = 100`, `filled = 30`, owned by
user 1, on an unresolved market; everyone starts with balance 1000. -/
def c5pre : CancelState :=
  { order := COrder.mk 1 .BUY .LIMIT 100 30 .OPEN
    marketResolved := false
    balances := fun _ => 1000
    refundLog := [] }

/-- The state after user 2 — an administrator who does not own the
order — cancels the order of `c5pre`. -/
def c5after : CancelState := exceptD c5pre (cancelOrder 2 true c5pre)

/-- The state after user 1 — the owner — cancels the order of `c5pre`. -/
def c5own : CancelState := exceptD c5pre (cancelOrder 1 false c5pre)

/-- A book with a single resting SELL of 30 shares at price 0.50 by
user 2. -/
def c10book : List BookOrder := [BookOrder.mk 1 2 (1/2) 30 0 .OPEN]

/-- User 1's MARKET BUY of `amount = 100` placed against `c10book`: it
fills 30 and stays OPEN; user 1 paid only the 15 spent on the fills
(balance 1000 - 15 = 985). -/
def c10pre : CancelState :=
  { order := COrder.mk 1 .BUY .MARKET 100 30 .OPEN
    marketResolved := false
    balances := fun _ => 985
    refundLog := [] }

/-- The state after user 1 cancels the partially filled MARKET BUY. -/
def c10after : CancelState := exceptD c10pre (cancelOrder 1 false c10pre)

/-- Seller 1 holds 10 shares and the book is empty. -/
def c8s0 : SellerState := SellerState.mk 10 []

/-- Seller 1's resting LIMIT SELL of all 10 shares at price 0.50. -/
def c8o : BookOrder := BookOrder.mk 1 1 (1/2) 10 0 .OPEN

/-- After placing the LIMIT SELL: the holding is unchanged (shares are
not reserved). -/
def c8s1 : SellerState := SellerState.mk 10 [c8o]

/-- After the seller additionally AMM-sells all 10 shares: the holding is
0 but the resting SELL still rests. -/
def c8s2 : SellerState := SellerState.mk 0 [c8o]

/-- An unresolved two-outcome market (outcome ids 7 and 8): user 1 holds
40 shares of outcome 7, user 2 holds 25 shares of outcome 8; no open
orders; everyone's balance is 1000. -/
def c3pre : ResState :=
  { isResolved := false
    resolvedOutcomeId := none
    outcomeIds := [7, 8]
    holdings := [Holding.mk 1 7 40, Holding.mk 2 8 25]
    orders := []
    balances := fun _ => 1000
    txLog := [] }

/-- A book with one resting SELL of 3 shares at price 0.50 by user 2. -/
def c4book : List BookOrder := [BookOrder.mk 1 2 (1/2) 3 0 .OPEN]

end FM

namespace FM

/-! ## Claim theorems -/

/-- C9: on a fresh two-outcome market (probabilities 0.50/0.50, volume
0), an AMM-path BUY of notional 50 treats the zero volume as 1, giving
`impactFactor = 0.001 * (50/1) * 100 = 5`; the traded outcome clamps to
0.99 and the sibling is rescaled to exactly 0.01. -/
theorem C9_scenario :
    effectiveVolume 0 = 1 ∧
    impactFactor 50 0 = 5 ∧
    (ammTrade (createMarket 2) 50 .BUY).tradedProb = 99/100 ∧
    (ammTrade (createMarket 2) 50 .BUY).siblings = [1/100] := by
  refine ⟨by norm_num [effectiveVolume], by norm_num [impactFactor, effectiveVolume], ?_, ?_⟩
  · norm_num [ammTrade, createMarket, impactFactor, effectiveVolume, tradedNewProbability,
      rawNewProbability, clampProb, min_def, max_def, round4, round_eq]
  · norm_num [ammTrade, createMarket, impactFactor, effectiveVolume, tradedNewProbability,
      rawNewProbability, clampProb, redistribute, List.replicate, min_def, max_def,
      round4, round_eq]

/-- C2 as stated is false: sibling outcomes are only rescaled, never
clamped.  On a fresh three-outcome market (probabilities 1/3 each,
volume 0), a single AMM BUY of 50 pushes the traded outcome to 0.99 and
rescales both siblings to 0.005, below the 0.01 floor. -/
theorem C2_counterexample :
    (ammTrade (createMarket 3) 50 .BUY).siblings = [1/200, 1/200] ∧
    ¬ (1/100 : ℚ) ≤ 1/200 := by
  constructor
  · norm_num [ammTrade, createMarket, impactFactor, effectiveVolume, tradedNewProbability,
      rawNewProbability, clampProb, redistribute, List.replicate, min_def, max_def,
      round4, round_eq]
  · norm_num

/-- C2 amended: the directly traded outcome's stored probability always
lies in [0.01, 0.99] — the clamp-and-round update of both trade paths
guarantees it — but the rescaled sibling outcomes can leave the
interval. -/
theorem C2_traded_probability_bounds (t : TradeType) (p f : ℚ) :
    1/100 ≤ tradedNewProbability t p f ∧ tradedNewProbability t p f ≤ 99/100 := by
  unfold tradedNewProbability
  constructor
  · exact round4_lower (le_max_left _ _)
  · exact round4_upper (max_le (by norm_num) (min_le_left _ _))

end FM

namespace FM

/-- C6 as stated is false in two ways.  An order-book fill of 10 shares
at price 0.50 increments the market volume by the 10 shares, not by the
5.00 notional.  And with a market volume of 0.50, the code's
`marketVolume || 1` keeps 0.50 as the divisor, so the impact factor is
0.2, while `max(marketVolume, 1)` would give 0.1. -/
theorem C6_counterexample :
    (bookFillPricing (MarketState.mk (1/2) [1/2] 100) 10 .BUY).volume = 110 ∧
    (10 : ℚ) * (1/2) = 5 ∧
    (110 : ℚ) ≠ 100 + 5 ∧
    impactFactor 1 (1/2) = 1/5 ∧
    (1/1000 : ℚ) * (1 / max (1/2) 1) * 100 = 1/10 ∧
    (1/5 : ℚ) ≠ 1/10 := by
  refine ⟨?_, by norm_num, by norm_num, ?_, ?_, by norm_num⟩
  · norm_num [bookFillPricing]
  · norm_num [impactFactor, effectiveVolume]
  · norm_num [max_def]

/-- C6 amended: every AMM-path trade increments the market volume by the
request `amount` (the dollar notional in dollar mode, the share quantity
in shares mode) and computes its impact from the pre-trade volume
snapshot; every order-book fill increments the volume by the fill's
share quantity and computes its impact from the post-increment volume;
in both paths `volumeRatio = tradeAmount / (marketVolume || 1)` — zero
volume is replaced by 1, any non-zero volume is used as is — and
`impactFactor = 0.001 * volumeRatio * 100 = tradeAmount / (10 * (marketVolume || 1))`. -/
theorem C6_volume_and_impact (s : MarketState) (a fill : ℚ) (t : TradeType) :
    (ammTrade s a t).volume = s.volume + a ∧
    (ammTrade s a t).tradedProb
      = tradedNewProbability t s.tradedProb (impactFactor a s.volume) ∧
    (bookFillPricing s fill t).volume = s.volume + fill ∧
    (bookFillPricing s fill t).tradedProb
      = tradedNewProbability t s.tradedProb (impactFactor fill (s.volume + fill)) ∧
    impactFactor a s.volume = a / (10 * effectiveVolume s.volume) := by
  refine ⟨rfl, rfl, rfl, rfl, ?_⟩
  have hv : effectiveVolume s.volume ≠ 0 := by
    unfold effectiveVolume
    split
    · norm_num
    · assumption
  unfold impactFactor
  field_simp
  ring

/-- C1 as stated is false: the sibling rounding errors can add up to
exactly 1e-4.  On a fresh five-outcome market (probabilities 0.2 each,
volume 0), an AMM BUY of 0.001 moves the traded outcome to 0.2001 while
all four siblings round back up to 0.2000, so the probabilities sum to
1.0001 and `|sum - 1| = 1e-4` is not `< 1e-4`. -/
theorem C1_counterexample :
    probSum (ammTrade (createMarket 5) (1/1000) .BUY) = 10001/10000 ∧
    ¬ |(10001/10000 : ℚ) - 1| < 1/10000 := by
  constructor
  · norm_num [probSum, ammTrade, createMarket, impactFactor, effectiveVolume,
      tradedNewProbability, rawNewProbability, clampProb, redistribute,
      List.replicate, min_def, max_def, round4, round_eq]
  · rw [show (10001/10000 : ℚ) - 1 = 1/10000 by norm_num,
      abs_of_pos (show (0:ℚ) < 1/10000 by norm_num)]
    norm_num

/-- C1 amended: after any successful trade on either path, the sum of
the market's outcome probabilities differs from 1.00 by at most
`(N - 1) * 5e-5` where `N - 1` is the number of sibling outcomes (so the
stated `< 1e-4` bound does hold for two-outcome markets, but can be
reached or exceeded from three outcomes on); the redistribution step
scales every sibling by `(1 - newProb)` divided by the pre-update sum of
the sibling probabilities and rounds each result to four decimal
places. -/
theorem C1_probability_sum_bound (s : MarketState) (amount fill : ℚ) (t : TradeType)
    (h : s.siblings.sum ≠ 0) :
    |probSum (ammTrade s amount t) - 1| ≤ s.siblings.length * (1/20000) ∧
    |probSum (bookFillPricing s fill t) - 1| ≤ s.siblings.length * (1/20000) := by
  constructor
  · simpa [probSum, ammTrade] using
      redistribute_sum_bound
        (tradedNewProbability t s.tradedProb (impactFactor amount s.volume)) s.siblings h
  · simpa [probSum, bookFillPricing] using
      redistribute_sum_bound
        (tradedNewProbability t s.tradedProb (impactFactor fill (s.volume + fill)))
        s.siblings h

/-- C1 amended, witnessed on the fresh two-outcome market of the C9
scenario with a BUY of 50 on each path. -/
theorem C1_probability_sum_bound_witness :
    (createMarket 2).siblings.sum ≠ 0 ∧
    (|probSum (ammTrade (createMarket 2) 50 .BUY) - 1|
        ≤ (createMarket 2).siblings.length * (1/20000) ∧
     |probSum (bookFillPricing (createMarket 2) 50 .BUY) - 1|
        ≤ (createMarket 2).siblings.length * (1/20000)) :=
  ⟨by norm_num [createMarket, List.replicate],
   C1_probability_sum_bound (createMarket 2) 50 50 .BUY
     (by norm_num [createMarket, List.replicate])⟩

end FM

namespace FM

/-! ### Lemmas about the matching loop -/

instance instPriceLeTotal : IsTotal BookOrder fun a b => a.price ≤ b.price :=
  ⟨fun a b => le_total a.price b.price⟩

instance instPriceLeTrans : IsTrans BookOrder fun a b => a.price ≤ b.price :=
  ⟨fun _ _ _ h1 h2 => le_trans h1 h2⟩

instance instPriceGeTotal : IsTotal BookOrder fun a b => b.price ≤ a.price :=
  ⟨fun a b => le_total b.price a.price⟩

instance instPriceGeTrans : IsTrans BookOrder fun a b => b.price ≤ a.price :=
  ⟨fun _ _ _ h1 h2 => le_trans h2 h1⟩

theorem totalAvailable_nonneg (l : List BookOrder) : 0 ≤ totalAvailable l := by
  unfold totalAvailable
  apply List.sum_nonneg
  intro x hx
  simp only [List.mem_map] at hx
  obtain ⟨o, _, rfl⟩ := hx
  exact le_max_left _ _

theorem matchLoop_fills_sum (r : ℚ) (l : List BookOrder) (hr : 0 ≤ r) :
    ((matchLoop r l).2.map FillRec.amount).sum = min r (totalAvailable l) := by
  induction l generalizing r with
  | nil =>
    simp only [matchLoop, List.map_nil, List.sum_nil, totalAvailable]
    exact (min_eq_right hr).symm
  | cons o tl ih =>
    by_cases h0 : r ≤ 0
    · have hr0 : r = 0 := le_antisymm h0 hr
      subst hr0
      simp only [matchLoop, if_pos le_rfl, List.map_nil, List.sum_nil]
      exact (min_eq_left (totalAvailable_nonneg (o :: tl))).symm
    · have hTcons : totalAvailable (o :: tl)
          = max 0 o.availableAmount + totalAvailable tl := by
        unfold totalAvailable
        simp
      by_cases ha : o.availableAmount ≤ 0
      · rw [hTcons, max_eq_left ha, zero_add]
        simp only [matchLoop, if_neg h0, if_pos ha]
        exact ih r hr
      · push_neg at h0 ha
        rw [hTcons, max_eq_right (le_of_lt ha)]
        simp only [matchLoop, if_neg (not_le.mpr h0), if_neg (not_le.mpr ha),
          List.map_cons, List.sum_cons]
        rw [ih (r - min r o.availableAmount)
          (by linarith [min_le_left r o.availableAmount])]
        rcases le_total r o.availableAmount with hle | hle
        · rw [min_eq_left hle]
          rw [min_eq_left (le_trans hle
            (by linarith [totalAvailable_nonneg tl]))]
          simp [min_eq_left (totalAvailable_nonneg tl)]
        · rw [min_eq_right hle]
          rcases le_total (r - o.availableAmount) (totalAvailable tl) with h2 | h2
          · rw [min_eq_left h2, min_eq_left (by linarith)]
            ring
          · rw [min_eq_right h2, min_eq_right (by linarith)]

theorem matchLoop_book_oids (r : ℚ) (l : List BookOrder) :
    (matchLoop r l).1.map BookOrder.oid = l.map BookOrder.oid := by
  induction l generalizing r with
  | nil => simp [matchLoop]
  | cons o tl ih =>
    by_cases h0 : r ≤ 0
    · simp [matchLoop, if_pos h0]
    · by_cases ha : o.availableAmount ≤ 0
      · simp [matchLoop, if_neg h0, if_pos ha, ih]
      · simp [matchLoop, if_neg h0, if_neg ha, ih]

theorem matchLoop_fills_sound (r : ℚ) (l : List BookOrder) :
    ∀ f ∈ (matchLoop r l).2, ∃ o, o ∈ l ∧
      o.oid = f.makerOid ∧ o.owner = f.maker ∧ o.price = f.price ∧
      0 < f.amount ∧ f.amount ≤ o.availableAmount := by
  induction l generalizing r with
  | nil => simp [matchLoop]
  | cons o tl ih =>
    intro f hf
    by_cases h0 : r ≤ 0
    · simp [matchLoop, if_pos h0] at hf
    · by_cases ha : o.availableAmount ≤ 0
      · simp only [matchLoop, if_neg h0, if_pos ha] at hf
        obtain ⟨o2, ho2, h⟩ := ih r f hf
        exact ⟨o2, List.mem_cons_of_mem _ ho2, h⟩
      · simp only [matchLoop, if_neg h0, if_neg ha, List.mem_cons] at hf
        push_neg at h0 ha
        rcases hf with rfl | hf
        · exact ⟨o, List.mem_cons_self _ _, rfl, rfl, rfl,
            lt_min h0 ha, min_le_right _ _⟩
        · obtain ⟨o2, ho2, h⟩ := ih (r - min r o.availableAmount) f hf
          exact ⟨o2, List.mem_cons_of_mem _ ho2, h⟩

theorem tradeRowsOf_length (u : ℕ) (t : TradeType) (fills : List FillRec) :
    (tradeRowsOf u t fills).length = 2 * fills.length := by
  induction fills with
  | nil => simp [tradeRowsOf]
  | cons f tl ih =>
    simp [tradeRowsOf] at ih ⊢
    omega

theorem sortBook_mem (t : TradeType) (l : List BookOrder) (o : BookOrder) :
    o ∈ sortBook t l ↔ o ∈ l := by
  cases t <;> exact (List.perm_insertionSort _ _).mem_iff

theorem totalAvailable_sortBook (t : TradeType) (l : List BookOrder) :
    totalAvailable (sortBook t l) = totalAvailable l := by
  unfold totalAvailable
  cases t <;> exact List.Perm.sum_eq ((List.perm_insertionSort _ _).map _)

end FM

namespace FM

/-- C4: a MARKET order walks the opposite-side OPEN orders sorted by
price (ascending for an incoming BUY, descending for an incoming SELL),
fills `min(incoming remaining, resting remaining)` at each resting
order's price, writes two Trade rows per match, finalizes FILLED exactly
when the book could cover the full amount and otherwise stays OPEN with
the partial fill, and never rests the unfilled remainder: the resulting
book consists of exactly the walked resting orders. -/
theorem C4_market_order_matching (t : TradeType) (amount : ℚ) (taker : ℕ)
    (opposite : List BookOrder) (hamt : 0 ≤ amount) :
    (placeMarketOrder t amount opposite).filledTotal
        = min amount (totalAvailable (openOrders opposite)) ∧
    ((placeMarketOrder t amount opposite).status = .FILLED
        ↔ amount ≤ totalAvailable (openOrders opposite)) ∧
    ((placeMarketOrder t amount opposite).status = .FILLED ∨
     (placeMarketOrder t amount opposite).status = .OPEN) ∧
    (∀ f ∈ (placeMarketOrder t amount opposite).fills, ∃ o, o ∈ opposite ∧
        o.status = .OPEN ∧ o.price = f.price ∧ 0 < f.amount ∧
        f.amount ≤ o.availableAmount) ∧
    (tradeRowsOf taker t (placeMarketOrder t amount opposite).fills).length
        = 2 * (placeMarketOrder t amount opposite).fills.length ∧
    (placeMarketOrder t amount opposite).book.map BookOrder.oid
        = (sortBook t (openOrders opposite)).map BookOrder.oid ∧
    List.Sorted (fun a b : BookOrder => a.price ≤ b.price)
      (sortBook .BUY (openOrders opposite)) ∧
    List.Sorted (fun a b : BookOrder => b.price ≤ a.price)
      (sortBook .SELL (openOrders opposite)) := by
  have hft : (placeMarketOrder t amount opposite).filledTotal
      = min amount (totalAvailable (openOrders opposite)) := by
    simp only [placeMarketOrder]
    rw [matchLoop_fills_sum amount _ hamt, totalAvailable_sortBook]
  refine ⟨hft, ?_, ?_, ?_, ?_, ?_, ?_, ?_⟩
  · have hst : (placeMarketOrder t amount opposite).status
        = if amount ≤ (placeMarketOrder t amount opposite).filledTotal
          then OrderStatus.FILLED else OrderStatus.OPEN := by
      simp only [placeMarketOrder]
    rw [hst, hft]
    by_cases hc : amount ≤ totalAvailable (openOrders opposite)
    · rw [if_pos (le_min le_rfl hc)]
      simp [hc]
    · have hn : ¬ amount ≤ min amount (totalAvailable (openOrders opposite)) := by
        intro hle
        exact hc (le_trans hle (min_le_right _ _))
      rw [if_neg hn]
      simp [hc]
  · simp only [placeMarketOrder]
    by_cases hc : amount ≤ ((matchLoop amount
        (sortBook t (openOrders opposite))).2.map FillRec.amount).sum
    · exact Or.inl (by simp [hc])
    · exact Or.inr (by simp [hc])
  · intro f hf
    have hf2 : f ∈ (matchLoop amount (sortBook t (openOrders opposite))).2 := hf
    obtain ⟨o, ho, hoid, how, hop, hpos, hle⟩ := matchLoop_fills_sound _ _ f hf2
    rw [sortBook_mem] at ho
    have ho2 : o ∈ opposite ∧ o.status = .OPEN := by
      simpa [openOrders] using ho
    exact ⟨o, ho2.1, ho2.2, hop, hpos, hle⟩
  · exact tradeRowsOf_length taker t _
  · simp only [placeMarketOrder]
    exact matchLoop_book_oids _ _
  · exact List.sorted_insertionSort _ _
  · exact List.sorted_insertionSort _ _

/-- C4 witnessed: a MARKET BUY of 5 against a book holding one OPEN SELL
of 3 at price 0.50. -/
theorem C4_market_order_matching_witness :
    (0:ℚ) ≤ 5 ∧
    ((placeMarketOrder .BUY 5 c4book).filledTotal
        = min 5 (totalAvailable (openOrders c4book)) ∧
    ((placeMarketOrder .BUY 5 c4book).status = .FILLED
        ↔ (5:ℚ) ≤ totalAvailable (openOrders c4book)) ∧
    ((placeMarketOrder .BUY 5 c4book).status = .FILLED ∨
     (placeMarketOrder .BUY 5 c4book).status = .OPEN) ∧
    (∀ f ∈ (placeMarketOrder .BUY 5 c4book).fills, ∃ o, o ∈ c4book ∧
        o.status = .OPEN ∧ o.price = f.price ∧ 0 < f.amount ∧
        f.amount ≤ o.availableAmount) ∧
    (tradeRowsOf 3 .BUY (placeMarketOrder .BUY 5 c4book).fills).length
        = 2 * (placeMarketOrder .BUY 5 c4book).fills.length ∧
    (placeMarketOrder .BUY 5 c4book).book.map BookOrder.oid
        = (sortBook .BUY (openOrders c4book)).map BookOrder.oid ∧
    List.Sorted (fun a b : BookOrder => a.price ≤ b.price)
      (sortBook .BUY (openOrders c4book)) ∧
    List.Sorted (fun a b : BookOrder => b.price ≤ a.price)
      (sortBook .SELL (openOrders c4book))) :=
  ⟨by norm_num, C4_market_order_matching .BUY 5 3 c4book (by norm_num)⟩

/-- C10: only a LIMIT BUY reserves its full amount at placement; a
MARKET BUY is debited only `fillAmount * price` per actual fill, while
cancellation credits `amount - filled` to any OPEN BUY order regardless
of its `orderType`.  Concretely: a MARKET BUY of 100 against a book with
one SELL of 30 at 0.50 fills 30, costs 15 and stays OPEN; cancelling it
refunds 70 that was never debited, so the owner's balance strictly
increases relative to the fills alone. -/
theorem C10_market_buy_refund_leak :
    (∀ a : ℚ, ∀ b : List BookOrder, placeBuyBalanceDelta .LIMIT a b = -a) ∧
    (∀ a : ℚ, ∀ b : List BookOrder, placeBuyBalanceDelta .MARKET a b
        = -((placeMarketOrder .BUY a b).fills.map fun f => f.amount * f.price).sum) ∧
    (placeMarketOrder .BUY 100 c10book).filledTotal = 30 ∧
    (placeMarketOrder .BUY 100 c10book).status = .OPEN ∧
    placeBuyBalanceDelta .MARKET 100 c10book = -15 ∧
    placeBuyBalanceDelta .LIMIT 100 c10book = -100 ∧
    (∀ k : OrderKind,
      (exceptD c10pre (cancelOrder 1 false
        { c10pre with order := { c10pre.order with kind := k } })).balances 1
        = 985 + 70) ∧
    c10after.order.status = .CANCELLED ∧
    c10after.balances 1 = 985 + 70 ∧
    (985 : ℚ) + 70 - 15 > 985 - 15 := by
  refine ⟨fun a b => rfl, fun a b => rfl, ?_, ?_, ?_, ?_, ?_, ?_, ?_, by norm_num⟩
  · simp [placeMarketOrder, c10book, openOrders, sortBook, List.insertionSort,
      List.orderedInsert, matchLoop, BookOrder.availableAmount]
    norm_num [min_def]
  · simp [placeMarketOrder, c10book, openOrders, sortBook, List.insertionSort,
      List.orderedInsert, matchLoop, BookOrder.availableAmount]
    norm_num [min_def]
  · simp [placeBuyBalanceDelta, placeMarketOrder, c10book, openOrders, sortBook,
      List.insertionSort, List.orderedInsert, matchLoop, BookOrder.availableAmount]
    norm_num [min_def]
  · simp [placeBuyBalanceDelta]
  · intro k
    cases k <;>
      norm_num [exceptD, cancelOrder, c10pre]
  · norm_num [c10after, exceptD, cancelOrder, c10pre]
  · norm_num [c10after, exceptD, cancelOrder, c10pre]

end FM

namespace FM

/-- C5 as stated is false for administrator cancellations: the route
credits the refund to the authenticated caller, not to the order's
owner.  When admin user 2 cancels user 1's OPEN BUY order with
`amount = 100, filled = 30`, the order is CANCELLED but user 1's balance
is unchanged and user 2 receives the 70, logged under user 2. -/
theorem C5_counterexample :
    c5after.order.status = .CANCELLED ∧
    c5after.balances 1 = 1000 ∧
    c5after.balances 2 = 1070 ∧
    c5after.refundLog = [(2, 70)] ∧
    (1000 : ℚ) ≠ 1000 + (100 - 30) := by
  refine ⟨?_, ?_, ?_, ?_, by norm_num⟩ <;>
    norm_num [c5after, exceptD, cancelOrder, c5pre]

theorem authNotForbidden {caller owner : ℕ} {isAdmin : Bool}
    (h : caller = owner ∨ isAdmin = true) : ¬ (caller ≠ owner ∧ isAdmin = false) := by
  rcases h with h | h
  · exact fun hc => hc.1 h
  · intro hc
    rw [h] at hc
    cases hc.2

/-- C5 amended: cancelling an OPEN BUY order on an unresolved market
succeeds for the owner and for administrators, sets the order CANCELLED
and credits exactly `amount - filled` to the authenticated caller's
balance (the owner when the owner cancels; the administrator when an
administrator cancels another user's order), logging the
`ORDER_CANCEL_REFUND` under the caller; SELL cancellation performs no
ledger action; any later cancel attempt by an authorized caller fails
with `AlreadyClosed`. -/
theorem C5_cancel_refund (caller : ℕ) (isAdmin : Bool) (s : CancelState)
    (hauth : caller = s.order.owner ∨ isAdmin = true)
    (hopen : s.order.status = .OPEN)
    (hres : s.marketResolved = false) :
    ∃ s2, cancelOrder caller isAdmin s = .ok s2 ∧
      s2.order.status = .CANCELLED ∧
      s2.order.owner = s.order.owner ∧
      (s.order.side = .BUY → 0 < s.order.amount - s.order.filled →
        s2.balances caller = s.balances caller + (s.order.amount - s.order.filled) ∧
        s2.refundLog = (caller, s.order.amount - s.order.filled) :: s.refundLog) ∧
      (s.order.side = .SELL →
        (∀ u, s2.balances u = s.balances u) ∧ s2.refundLog = s.refundLog) ∧
      (∀ c2 a2, c2 = s.order.owner ∨ a2 = true →
        cancelOrder c2 a2 s2 = .error .AlreadyClosed) := by
  have hnotforb : ¬ (caller ≠ s.order.owner ∧ isAdmin = false) :=
    authNotForbidden hauth
  have hopen2 : ¬ s.order.status ≠ OrderStatus.OPEN := by simp [hopen]
  by_cases hb : s.order.side = .BUY ∧ 0 < s.order.amount - s.order.filled
  · refine ⟨{ order := { s.order with status := .CANCELLED }
              marketResolved := s.marketResolved
              balances := fun u =>
                if u = caller then s.balances u + (s.order.amount - s.order.filled)
                else s.balances u
              refundLog := (caller, s.order.amount - s.order.filled) :: s.refundLog },
            ?_, rfl, rfl, ?_, ?_, ?_⟩
    · unfold cancelOrder
      rw [if_neg hnotforb, if_neg hopen2, if_neg (by simp [hres]), if_pos hb]
    · intro _ _
      exact ⟨by simp, rfl⟩
    · intro hsell
      rw [hsell] at hb
      exact absurd hb (by simp)
    · intro c2 a2 hauth2
      unfold cancelOrder
      rw [if_neg (authNotForbidden hauth2), if_pos (by simp)]
  · refine ⟨{ s with order := { s.order with status := .CANCELLED } },
            ?_, rfl, rfl, ?_, ?_, ?_⟩
    · unfold cancelOrder
      rw [if_neg hnotforb, if_neg hopen2, if_neg (by simp [hres]), if_neg hb]
    · intro h1 h2
      exact absurd ⟨h1, h2⟩ hb
    · intro _
      exact ⟨fun _ => rfl, rfl⟩
    · intro c2 a2 hauth2
      unfold cancelOrder
      rw [if_neg (authNotForbidden hauth2), if_pos (by simp)]

/-- C5 amended, witnessed: the owner cancels their own OPEN BUY order
with `amount = 100, filled = 30`. -/
theorem C5_cancel_refund_witness :
    ((1 : ℕ) = c5pre.order.owner ∨ false = true) ∧
    c5pre.order.status = .OPEN ∧
    c5pre.marketResolved = false ∧
    (∃ s2, cancelOrder 1 false c5pre = .ok s2 ∧
      s2.order.status = .CANCELLED ∧
      s2.order.owner = c5pre.order.owner ∧
      (c5pre.order.side = .BUY → 0 < c5pre.order.amount - c5pre.order.filled →
        s2.balances 1 = c5pre.balances 1 + (c5pre.order.amount - c5pre.order.filled) ∧
        s2.refundLog = (1, c5pre.order.amount - c5pre.order.filled) :: c5pre.refundLog) ∧
      (c5pre.order.side = .SELL →
        (∀ u, s2.balances u = c5pre.balances u) ∧ s2.refundLog = c5pre.refundLog) ∧
      (∀ c2 a2, c2 = c5pre.order.owner ∨ a2 = true →
        cancelOrder c2 a2 s2 = .error .AlreadyClosed)) :=
  ⟨Or.inl rfl, rfl, rfl,
   C5_cancel_refund 1 false c5pre (Or.inl rfl) rfl rfl⟩

/-- C7 as stated is false on the plain trade route: a full sell there
only decrements the quantity to 0 and keeps the `UserOutcome` row, while
the enhanced YES/NO route deletes it.  Selling all 10 shares (held at
`avgPrice = 0.50`) at probability 0.50: the plain route returns the
surviving zero-quantity holding, the enhanced route returns `none`. -/
theorem C7_counterexample :
    ammSellHolding (UHolding.mk 10 (1/2)) true 10 (1/2)
      = .ok (UHolding.mk 0 (1/2), 0) ∧
    enhancedSellHolding (UHolding.mk 10 (1/2)) true 10 (1/2) = .ok (none, 0) := by
  constructor <;>
    norm_num [ammSellHolding, enhancedSellHolding, sharesToSell, sellNotional]

/-- C7 amended: disposing shares requires the holding to cover the sold
quantity; a partial sell decrements the quantity with `avgPrice`
unchanged; the realized P&L surfaced as transaction metadata equals
`soldQty * (tradePrice - avgPrice)`.  A full sell deletes the holding
row only on the enhanced YES/NO route; the plain trade route keeps the
row with quantity 0. -/
theorem C7_dispose_shares (h : UHolding) (mode : Bool) (amount prob : ℚ)
    (hprob : prob ≠ 0)
    (hcover : sharesToSell mode amount prob ≤ h.quantity)
    (hpos : 0 < h.quantity) :
    ammSellHolding h mode amount prob
      = .ok (UHolding.mk (h.quantity - sharesToSell mode amount prob) h.avgPrice,
             sharesToSell mode amount prob * (prob - h.avgPrice)) ∧
    enhancedSellHolding h mode amount prob
      = .ok ((if h.quantity ≤ sharesToSell mode amount prob then none
              else some (UHolding.mk (h.quantity - sharesToSell mode amount prob)
                h.avgPrice)),
             sharesToSell mode amount prob * (prob - h.avgPrice)) := by
  have hnot : ¬ h.quantity < sharesToSell mode amount prob := not_lt.mpr hcover
  have hsell : sellNotional mode amount prob
      = sharesToSell mode amount prob * prob := by
    unfold sellNotional sharesToSell
    cases mode
    · simp only [Bool.false_eq_true, if_false]
      field_simp
    · simp
  have hpl : sellNotional mode amount prob - sharesToSell mode amount prob * h.avgPrice
      = sharesToSell mode amount prob * (prob - h.avgPrice) := by
    rw [hsell]; ring
  constructor
  · unfold ammSellHolding
    rw [if_neg hnot]
    simp only [Except.ok.injEq, Prod.mk.injEq]
    exact ⟨by trivial, hpl⟩
  · unfold enhancedSellHolding
    rw [if_neg (by
      intro hc
      rcases hc with hc | hc
      · exact absurd hpos (not_lt.mpr hc)
      · exact hnot hc)]
    simp only [Except.ok.injEq, Prod.mk.injEq]
    exact ⟨by trivial, hpl⟩

/-- C7 amended, witnessed: selling 4 of 10 shares held at cost 0.40 at
probability 0.50 (shares mode) realizes `4 * (0.50 - 0.40) = 0.40`. -/
theorem C7_dispose_shares_witness :
    ((1:ℚ)/2 ≠ 0) ∧
    sharesToSell true 4 (1/2) ≤ (UHolding.mk 10 (2/5)).quantity ∧
    (0 : ℚ) < (UHolding.mk 10 (2/5)).quantity ∧
    (ammSellHolding (UHolding.mk 10 (2/5)) true 4 (1/2)
      = .ok (UHolding.mk ((UHolding.mk 10 (2/5)).quantity - sharesToSell true 4 (1/2))
               (UHolding.mk 10 (2/5)).avgPrice,
             sharesToSell true 4 (1/2) * (1/2 - (UHolding.mk 10 (2/5)).avgPrice)) ∧
    enhancedSellHolding (UHolding.mk 10 (2/5)) true 4 (1/2)
      = .ok ((if (UHolding.mk 10 (2/5)).quantity ≤ sharesToSell true 4 (1/2) then none
              else some (UHolding.mk
                ((UHolding.mk 10 (2/5)).quantity - sharesToSell true 4 (1/2))
                (UHolding.mk 10 (2/5)).avgPrice)),
             sharesToSell true 4 (1/2) * (1/2 - (UHolding.mk 10 (2/5)).avgPrice))) :=
  ⟨by norm_num, by norm_num [sharesToSell], by norm_num,
   C7_dispose_shares (UHolding.mk 10 (2/5)) true 4 (1/2) (by norm_num)
     (by norm_num [sharesToSell]) (by norm_num)⟩

/-- C8 as stated is false: quantity is only checked when an operation
starts, and order-book fills decrement the resting seller's holding with
no re-check.  Seller 1 holds 10 shares, rests a LIMIT SELL of all 10,
then AMM-sells the same 10 shares (holding drops to 0, the resting order
still rests); a MARKET BUY of 10 then fills the resting order and drives
the holding to -10. -/
theorem C8_counterexample :
    placeLimitSell c8s0 1 1 10 (1/2) = .ok c8s1 ∧
    ammSellShares c8s1 10 = .ok c8s2 ∧
    (fillMarketBuy c8s2 10).quantity = -10 ∧
    ¬ (0:ℚ) ≤ -10 := by
  refine ⟨?_, ?_, ?_, by norm_num⟩
  · norm_num [placeLimitSell, c8s0, c8s1, c8o]
  · norm_num [ammSellShares, c8s1, c8s2, c8o]
  · simp [fillMarketBuy, c8s2, c8o, placeMarketOrder, openOrders, sortBook,
      List.insertionSort, List.orderedInsert, matchLoop, BookOrder.availableAmount]
    norm_num [min_def]

/-- C8 amended: the guarded operations do preserve non-negativity — an
AMM sell that succeeds leaves the holding's quantity non-negative,
because the route rejects sells exceeding the current quantity — but
order-book fills decrement without re-checking, so several sell
commitments against one holding can drive it negative. -/
theorem C8_guarded_sell_nonneg (s : SellerState) (amount : ℚ) (s2 : SellerState)
    (hok : ammSellShares s amount = .ok s2) : 0 ≤ s2.quantity := by
  unfold ammSellShares at hok
  by_cases hc : s.quantity < amount
  · rw [if_pos hc] at hok
    exact absurd hok (by simp)
  · rw [if_neg hc] at hok
    have h2 : SellerState.mk (s.quantity - amount) s.restingSells = s2 := by
      injection hok
    rw [← h2]
    push_neg at hc
    simp only []
    linarith

/-- C8 amended, witnessed: AMM-selling 4 of 10 held shares leaves 6. -/
theorem C8_guarded_sell_nonneg_witness :
    ammSellShares (SellerState.mk 10 []) 4 = .ok (SellerState.mk 6 []) ∧
    (0:ℚ) ≤ (SellerState.mk 6 []).quantity :=
  ⟨by norm_num [ammSellShares],
   C8_guarded_sell_nonneg (SellerState.mk 10 []) 4 (SellerState.mk 6 [])
     (by norm_num [ammSellShares])⟩

end FM

namespace FM

/-! ### Lemmas about resolution -/

theorem winTotal_cons (winning u : ℕ) (h : Holding) (tl : List Holding) :
    winTotal winning u (h :: tl)
      = (if 0 < h.quantity ∧ h.outcomeId = winning ∧ h.holder = u
         then h.quantity else 0) + winTotal winning u tl := by
  unfold winTotal
  rw [List.filter_cons]
  by_cases hc : 0 < h.quantity ∧ h.outcomeId = winning ∧ h.holder = u
  · simp [hc]
  · simp [hc]

theorem refundTotal_cons (u : ℕ) (o : ResOrder) (tl : List ResOrder) :
    refundTotal u (o :: tl)
      = (if o.status = .OPEN ∧ o.side = .BUY ∧ 0 < o.amount - o.filled ∧ o.owner = u
         then o.amount - o.filled else 0) + refundTotal u tl := by
  unfold refundTotal
  rw [List.filter_cons]
  simp only [Bool.and_eq_true, decide_eq_true_eq]
  by_cases hc : o.status = .OPEN ∧ o.side = .BUY ∧ 0 < o.amount - o.filled ∧ o.owner = u
  · rw [if_pos hc, if_pos hc]
    simp
  · rw [if_neg hc, if_neg hc]
    simp

theorem resolveHoldings_holdings (winning : ℕ) (l : List Holding) (bal : ℕ → ℚ)
    (log : List TxRec) :
    (resolveHoldings winning l bal log).1
      = l.map fun h => if 0 < h.quantity then { h with quantity := 0 } else h := by
  induction l generalizing bal log with
  | nil => simp [resolveHoldings]
  | cons h tl ih =>
    by_cases hq : 0 < h.quantity
    · simp [resolveHoldings, hq, ih]
    · simp [resolveHoldings, hq, ih]

theorem resolveHoldings_balance (winning : ℕ) (l : List Holding) (bal : ℕ → ℚ)
    (log : List TxRec) (u : ℕ) :
    (resolveHoldings winning l bal log).2.1 u = bal u + winTotal winning u l := by
  induction l generalizing bal log with
  | nil => simp [resolveHoldings, winTotal]
  | cons h tl ih =>
    rw [winTotal_cons]
    by_cases hq : 0 < h.quantity
    · by_cases hw : h.outcomeId = winning
      · simp only [resolveHoldings, if_pos hq, if_pos hw]
        rw [ih]
        by_cases hu : u = h.holder
        · rw [if_pos hu,
            if_pos (show 0 < h.quantity ∧ h.outcomeId = winning ∧ h.holder = u from
              ⟨hq, hw, hu.symm⟩)]
          ring
        · rw [if_neg hu,
            if_neg (show ¬ (0 < h.quantity ∧ h.outcomeId = winning ∧ h.holder = u) from
              fun hc => hu hc.2.2.symm)]
          ring
      · simp only [resolveHoldings, if_pos hq, if_neg hw]
        rw [ih,
          if_neg (show ¬ (0 < h.quantity ∧ h.outcomeId = winning ∧ h.holder = u) from
            fun hc => hw hc.2.1)]
        ring
    · simp only [resolveHoldings, if_neg hq]
      rw [ih,
        if_neg (show ¬ (0 < h.quantity ∧ h.outcomeId = winning ∧ h.holder = u) from
          fun hc => hq hc.1)]
      ring

theorem resolveHoldings_log (winning : ℕ) (l : List Holding) (bal : ℕ → ℚ)
    (log : List TxRec) :
    (resolveHoldings winning l bal log).2.2 = log ++ payoutEntries winning l := by
  induction l generalizing bal log with
  | nil => simp [resolveHoldings, payoutEntries]
  | cons h tl ih =>
    by_cases hq : 0 < h.quantity
    · by_cases hw : h.outcomeId = winning
      · simp [resolveHoldings, hq, hw, ih, payoutEntries, List.filter_cons]
      · simp [resolveHoldings, hq, hw, ih, payoutEntries, List.filter_cons]
    · simp [resolveHoldings, hq, ih, payoutEntries, List.filter_cons]

theorem resolveOrders_orders (l : List ResOrder) (bal : ℕ → ℚ) (log : List TxRec) :
    (resolveOrders l bal log).1
      = l.map fun o => if o.status = .OPEN then { o with status := .CANCELLED } else o := by
  induction l generalizing bal log with
  | nil => simp [resolveOrders]
  | cons o tl ih =>
    by_cases ho : o.status = .OPEN
    · simp [resolveOrders, ho, ih]
    · simp [resolveOrders, ho, ih]

theorem resolveOrders_balance (l : List ResOrder) (bal : ℕ → ℚ) (log : List TxRec)
    (u : ℕ) :
    (resolveOrders l bal log).2.1 u = bal u + refundTotal u l := by
  induction l generalizing bal log with
  | nil => simp [resolveOrders, refundTotal]
  | cons o tl ih =>
    rw [refundTotal_cons]
    by_cases ho : o.status = .OPEN
    · by_cases hc : o.side = .BUY ∧ 0 < o.amount - o.filled
      · simp only [resolveOrders, if_pos ho, if_pos hc]
        rw [ih]
        by_cases hu : u = o.owner
        · rw [if_pos hu,
            if_pos (show o.status = .OPEN ∧ o.side = .BUY ∧ 0 < o.amount - o.filled
                ∧ o.owner = u from ⟨ho, hc.1, hc.2, hu.symm⟩)]
          ring
        · rw [if_neg hu,
            if_neg (show ¬ (o.status = .OPEN ∧ o.side = .BUY ∧ 0 < o.amount - o.filled
                ∧ o.owner = u) from fun hx => hu hx.2.2.2.symm)]
          ring
      · simp only [resolveOrders, if_pos ho, if_neg hc]
        rw [ih,
          if_neg (show ¬ (o.status = .OPEN ∧ o.side = .BUY ∧ 0 < o.amount - o.filled
              ∧ o.owner = u) from fun hx => hc ⟨hx.2.1, hx.2.2.1⟩)]
        ring
    · simp only [resolveOrders, if_neg ho]
      rw [ih,
        if_neg (show ¬ (o.status = .OPEN ∧ o.side = .BUY ∧ 0 < o.amount - o.filled
            ∧ o.owner = u) from fun hx => ho hx.1)]
      ring

theorem resolveOrders_log (l : List ResOrder) (bal : ℕ → ℚ) (log : List TxRec) :
    (resolveOrders l bal log).2.2 = log ++ refundEntries l := by
  induction l generalizing bal log with
  | nil => simp [resolveOrders, refundEntries]
  | cons o tl ih =>
    by_cases ho : o.status = .OPEN
    · by_cases hc : o.side = .BUY ∧ 0 < o.amount - o.filled
      · obtain ⟨hc1, hc2⟩ := hc
        have hc3 : o.filled < o.amount := by linarith
        simp [resolveOrders, ho, hc1, hc2, hc3, ih, refundEntries, List.filter_cons]
      · have hc2 : ¬ (o.side = .BUY ∧ o.filled < o.amount) := by
          intro hx
          exact hc ⟨hx.1, by linarith [hx.2]⟩
        simp [resolveOrders, ho, hc, hc2, ih, refundEntries, List.filter_cons]
    · simp [resolveOrders, ho, ih, refundEntries, List.filter_cons]

end FM

namespace FM

/-- C3: resolving a market credits every holder of the winning outcome
with exactly `quantity * 1.00` (logged as `MARKET_RESOLUTION_PAYOUT`),
credits losing holders nothing, zeroes every positive holding in the
market, refunds `amount - filled` to the owner of every OPEN BUY order
(logged as `ORDER_REFUND`), marks every OPEN order CANCELLED, and a
second `ResolveMarket` call on the same market fails with
`AlreadyResolved` without producing any state change. -/
theorem C3_resolution (winning : ℕ) (s : ResState)
    (h1 : s.isResolved = false) (h2 : winning ∈ s.outcomeIds) :
    ∃ s2, resolveMarket winning s = .ok s2 ∧
      s2.isResolved = true ∧
      s2.resolvedOutcomeId = some winning ∧
      (∀ u, s2.balances u
          = s.balances u + winTotal winning u s.holdings + refundTotal u s.orders) ∧
      s2.holdings = s.holdings.map
        (fun h => if 0 < h.quantity then { h with quantity := 0 } else h) ∧
      s2.orders = s.orders.map
        (fun o => if o.status = .OPEN then { o with status := .CANCELLED } else o) ∧
      s2.txLog = s.txLog ++ payoutEntries winning s.holdings ++ refundEntries s.orders ∧
      (∀ w2, resolveMarket w2 s2 = .error .AlreadyResolved) := by
  have hok : resolveMarket winning s
      = .ok { isResolved := true
              resolvedOutcomeId := some winning
              outcomeIds := s.outcomeIds
              holdings := (resolveHoldings winning s.holdings s.balances s.txLog).1
              orders := (resolveOrders s.orders
                (resolveHoldings winning s.holdings s.balances s.txLog).2.1
                (resolveHoldings winning s.holdings s.balances s.txLog).2.2).1
              balances := (resolveOrders s.orders
                (resolveHoldings winning s.holdings s.balances s.txLog).2.1
                (resolveHoldings winning s.holdings s.balances s.txLog).2.2).2.1
              txLog := (resolveOrders s.orders
                (resolveHoldings winning s.holdings s.balances s.txLog).2.1
                (resolveHoldings winning s.holdings s.balances s.txLog).2.2).2.2 } := by
    unfold resolveMarket
    rw [if_neg (by simp [h1]), if_neg (by simp [h2])]
  refine ⟨_, hok, rfl, rfl, ?_, ?_, ?_, ?_, ?_⟩
  · intro u
    simp only [resolveOrders_balance, resolveHoldings_balance]
  · exact resolveHoldings_holdings winning s.holdings s.balances s.txLog
  · exact resolveOrders_orders s.orders _ _
  · rw [resolveOrders_log, resolveHoldings_log]
  · intro w2
    unfold resolveMarket
    rw [if_pos rfl]

/-- C3 witnessed on the scenario of the spec: user 1 holds 40 shares of
the winning outcome 7, user 2 holds 25 shares of the losing outcome 8,
no open orders; user 1 is paid exactly 40, user 2 nothing, both holdings
are zeroed. -/
theorem C3_resolution_witness :
    c3pre.isResolved = false ∧
    (7 : ℕ) ∈ c3pre.outcomeIds ∧
    (∃ s2, resolveMarket 7 c3pre = .ok s2 ∧
      s2.isResolved = true ∧
      s2.resolvedOutcomeId = some 7 ∧
      (∀ u, s2.balances u
          = c3pre.balances u + winTotal 7 u c3pre.holdings + refundTotal u c3pre.orders) ∧
      s2.holdings = c3pre.holdings.map
        (fun h => if 0 < h.quantity then { h with quantity := 0 } else h) ∧
      s2.orders = c3pre.orders.map
        (fun o => if o.status = .OPEN then { o with status := .CANCELLED } else o) ∧
      s2.txLog = c3pre.txLog ++ payoutEntries 7 c3pre.holdings
        ++ refundEntries c3pre.orders ∧
      (∀ w2, resolveMarket w2 s2 = .error .AlreadyResolved)) :=
  ⟨rfl, by norm_num [c3pre],
   C3_resolution 7 c3pre rfl (by norm_num [c3pre])⟩

end FM
